import Mathlib

/-!
Verification of the movie-ranking repository (gptproject.py / teamproject.py).

The two Python modules are embedded shallowly:
* strings are lists of characters (`Str`), with executable models of the
  Python primitives the sources use (`str.split`, `str.strip`, `int`,
  substring containment via `in`);
* ratings are exact rationals (the sources' `float` values are modelled as
  exact rational numbers; no claim under study depends on rounding);
* fallible operations (dictionary lookup, `max` of an empty generator,
  integer parsing, list indexing, division by a zero length) return
  `Option`, with `none` modelling the corresponding Python exception;
* the `limit` parameter `n` is modelled as a natural number (the sources'
  doctests only exercise non-negative limits).
-/

/-- Python strings, modelled as lists of characters. -/
abbrev Str := List Char

/-- The separator `", "` used by both sources to split actor fields. -/
def commaSpace : Str := [',', ' ']

/-- Characters removed by Python `str.strip()` (ASCII whitespace). -/
def isSpaceChar (c : Char) : Bool :=
  c = ' ' || c = '\t' || c = '\n' || c = '\r' || c = '\x0b' || c = '\x0c'

/-- Python `s.strip()`: remove leading and trailing whitespace. -/
def pyStrip (s : Str) : Str :=
  ((s.dropWhile isSpaceChar).reverse.dropWhile isSpaceChar).reverse

/-- Python `s.split(sep)` for a one-character separator `sep`
(used by the sources with `";"` and `","`): split on every occurrence,
keeping empty parts, so the result always has at least one part. -/
def splitOnChar (sep : Char) : Str → List Str
  | [] => [[]]
  | c :: rest =>
    if c = sep then [] :: splitOnChar sep rest
    else
      match splitOnChar sep rest with
      | [] => [[c]]
      | t :: ts => (c :: t) :: ts

/-- Python `s.split(", ")` (the two-character separator both sources use for
actor fields): split on every non-overlapping occurrence of comma-space,
scanning left to right, keeping empty parts. -/
def splitCS : Str → List Str
  | [] => [[]]
  | [c] => [[c]]
  | c1 :: c2 :: rest =>
    if c1 = ',' ∧ c2 = ' ' then [] :: splitCS rest
    else
      match splitCS (c2 :: rest) with
      | [] => [[c1]]
      | t :: ts => (c1 :: t) :: ts

/-- Value of an ASCII digit character. -/
def digitVal (c : Char) : Nat := c.toNat - 48

/-- Digit-string to number: `some` iff the string is a nonempty run of
ASCII digits. -/
def digitsToNat (s : Str) : Option Nat :=
  if s ≠ [] ∧ s.all Char.isDigit then
    some (s.foldl (fun a c => a * 10 + digitVal c) 0)
  else none

/-- Python `int(s)` on the decimal forms appearing in the data: surrounding
whitespace is ignored, an optional single sign precedes a nonempty digit
run; anything else raises `ValueError`, modelled as `none`. -/
def pyInt (s : Str) : Option Int :=
  match pyStrip s with
  | '+' :: ds => (digitsToNat ds).map (fun n => (n : Int))
  | '-' :: ds => (digitsToNat ds).map (fun n => -(n : Int))
  | ds => (digitsToNat ds).map (fun n => (n : Int))

/-- Lexicographic strict comparison of strings by code point
(Python `<` on `str`). -/
def strLt : Str → Str → Bool
  | [], [] => false
  | [], _ :: _ => true
  | _ :: _, [] => false
  | a :: as, b :: bs => a < b || (a = b && strLt as bs)

/-- Lexicographic comparison `≤` of strings (Python `<=` on `str`). -/
def strLe (a b : Str) : Bool := strLt a b || a = b

/-- Exact membership of a string in a list of strings
(Python `x in l` for a list `l`). -/
def memStr (x : Str) (l : List Str) : Bool := l.any (fun y => x = y)

/-- Python substring containment `sub in hay` on strings: `sub` occurs as a
contiguous segment of `hay` (the empty string is contained in everything). -/
def strContains (hay sub : Str) : Bool := decide (sub <:+: hay)

/-- One movie row as consumed by `top_n`: the four fields the function
reads, namely `movie[1]` (title), `movie[2]` (the raw comma-joined genre
field), `movie[5]` (the raw comma-space-joined actor field) and `movie[8]`
(the rating, `float(movie[8])` modelled as an exact rational). -/
structure Film where
  title : Str
  genres : Str
  actors : Str
  rating : ℚ
deriving DecidableEq, Repr

/-- The combined score `(movie_rating + actor_rating) / 2` both sources
compute from a `(title, rating, actor_rating)` triple. -/
def combinedOf (t : Str × ℚ × ℚ) : ℚ := (t.2.1 + t.2.2) / 2

/-- The sort key both sources use: ascending on
`(-combined_rating, title)`, i.e. descending combined score with the title
as tie-break. -/
def keyLe (x y : Str × ℚ × ℚ) : Bool :=
  decide (-combinedOf x < -combinedOf y) ||
    (decide (-combinedOf x = -combinedOf y) && strLe x.1 y.1)

/-- Insert an element into a sorted list, before the first element it
compares `le` to (the insertion step of a stable sort). -/
def insertSorted (le : α → α → Bool) (x : α) : List α → List α
  | [] => [x]
  | y :: ys => if le x y then x :: y :: ys else y :: insertSorted le x ys

/-- Stable insertion sort; for the total preorder `keyLe` it returns the
same list as Python's stable `sorted` with key `(-combined, title)`. -/
def sortBy (le : α → α → Bool) : List α → List α
  | [] => []
  | x :: xs => insertSorted le x (sortBy le xs)

/-! ### teamproject.py, `top_n` -/

/-- Lookup in a Python dictionary modelled as an association list. -/
def dictFind (d : List (Str × ℚ)) (k : Str) : Option ℚ :=
  match d with
  | [] => none
  | (k', v) :: rest => if k' = k then some v else dictFind rest k

/-- Assignment `d[k] = v` in a Python dictionary modelled as an
association list: replace in place if present, else append. -/
def dictInsert (d : List (Str × ℚ)) (k : Str) (v : ℚ) : List (Str × ℚ) :=
  match d with
  | [] => [(k, v)]
  | (k', v') :: rest =>
    if k' = k then (k, v) :: rest else (k', v') :: dictInsert rest k v

/-- One step of teamproject's index construction: `if actor not in
actors_rating: actors_rating[actor] = rating else: actors_rating[actor] =
max(actors_rating[actor], rating)`. -/
def teamInsertActor (d : List (Str × ℚ)) (rating : ℚ) (actor : Str) :
    List (Str × ℚ) :=
  match dictFind d actor with
  | none => dictInsert d actor rating
  | some r => dictInsert d actor (max r rating)

/-- teamproject's first loop over `data`: fold every film's actors into the
`actors_rating` dictionary. -/
def teamBuildAux : List Film → List (Str × ℚ) → List (Str × ℚ)
  | [], d => d
  | film :: rest, d =>
    teamBuildAux rest
      ((splitCS film.actors).foldl (fun d a => teamInsertActor d film.rating a) d)

/-- teamproject's `actors_rating` dictionary, built from the whole dataset. -/
def teamDict (data : List Film) : List (Str × ℚ) := teamBuildAux data []

/-- The duck-typed `genre` argument teamproject's `is_in_genres` receives:
either a plain string or a list of strings. -/
inductive GenreArg where
  | single (s : Str)
  | multi (l : List Str)
deriving DecidableEq, Repr

/-- Python `"".join(l)`. -/
def joinAll (l : List Str) : Str := l.foldl (fun a b => a ++ b) []

/-- teamproject's normalisation of the `genre` parameter:
`genre = genre.split(",")` and, when at most one part results,
`genre = "".join(genre)` turns it back into a plain string. -/
def teamGenreNorm (genre : Str) : GenreArg :=
  let g := splitOnChar ',' genre
  if g.length ≤ 1 then .single (joinAll g) else .multi g

/-- teamproject's `is_in_genres(film_genres, genre)`: an empty-string
filter passes everything; a string filter tests exact list membership; a
list filter tests whether any element is a member. -/
def isInGenres (filmGenres : List Str) : GenreArg → Bool
  | .single s => if s = [] then true else memStr s filmGenres
  | .multi l => l.any (fun g => memStr g filmGenres)

/-- teamproject's genre test applied to a film, after parameter
normalisation. -/
def teamPass (genre : Str) (f : Film) : Bool :=
  isInGenres (splitOnChar ',' f.genres) (teamGenreNorm genre)

/-- teamproject's accumulation `avg_rating += actors_rating[actor]` over a
list of actors; a missing key (Python `KeyError`) yields `none`. -/
def sumLookups (d : List (Str × ℚ)) : List Str → Option ℚ
  | [] => some 0
  | a :: rest =>
    match dictFind d a with
    | none => none
    | some v => (sumLookups d rest).map (fun s => v + s)

/-- teamproject's second loop over `data`: for every film passing the genre
test, append `(film[1], float(film[8]), average_actor_rating)`; a failed
dictionary lookup or a division by a zero actor count yields `none`. -/
def teamEntriesAux (dict : List (Str × ℚ)) (g : GenreArg) :
    List Film → Option (List (Str × ℚ × ℚ))
  | [] => some []
  | film :: rest =>
    let fg := splitOnChar ',' film.genres
    let actors := splitCS film.actors
    if isInGenres fg g then
      match sumLookups dict actors with
      | none => none
      | some s =>
        if actors.length = 0 then none
        else
          (teamEntriesAux dict g rest).map
            (fun tl => (film.title, film.rating, s / (actors.length : ℚ)) :: tl)
    else teamEntriesAux dict g rest

/-- teamproject's `top_n(data, genre, n)`: build the actor dictionary over
the whole dataset, collect the entries of films passing the genre test,
sort by `(-combined, title)`, project to `(title, combined)` pairs, and
return the first `n` pairs when `n > 0`, all of them otherwise. -/
def teamTopN (data : List Film) (genre : Str) (n : Nat) :
    Option (List (Str × ℚ)) :=
  (teamEntriesAux (teamDict data) (teamGenreNorm genre) data).map
    (fun answer =>
      let srt := sortBy keyLe answer
      let pairs := srt.map (fun t => (t.1, combinedOf t))
      if n > 0 then pairs.take n else pairs)

/-! ### gptproject.py, `top_n` -/

/-- gptproject's `get_highest_rating_for_actor(actor, all_movies)`:
`max(float(movie[8]) for movie in all_movies if actor in movie[5])`.
The containment test is Python substring containment in the *raw* actor
field; `max` of an empty generator (Python `ValueError`) is `none`. -/
def gptHighest (actor : Str) (allMovies : List Film) : Option ℚ :=
  match (allMovies.filter (fun m => strContains m.actors actor)).map Film.rating with
  | [] => none
  | r :: rs => some (rs.foldl max r)

/-- gptproject's `genre_list`:
`[g.strip() for g in genre.split(',')] if genre else []`. -/
def gptGenreList (genre : Str) : List Str :=
  if genre = [] then [] else (splitOnChar ',' genre).map pyStrip

/-- gptproject's genre test:
`not genre_list or any(g in movie[2] for g in genre_list)` — each filter
token is tested as a *substring* of the raw genre field. -/
def gptPass (gl : List Str) (m : Film) : Bool :=
  gl.isEmpty || gl.any (fun g => strContains m.genres g)

/-- Evaluate `f` on every element, failing if any evaluation fails (the
list comprehension `[get_highest_rating_for_actor(actor, data) for actor
in actors]`, any of whose elements may raise). -/
def optMap (f : Str → Option ℚ) : List Str → Option (List ℚ)
  | [] => some []
  | a :: as =>
    match f a with
    | none => none
    | some v => (optMap f as).map (fun vs => v :: vs)

/-- gptproject's loop over the genre-filtered movies: collect
`(title, movie_rating, actor_rating)` triples, where `actor_rating` is the
mean of the per-actor maxima taken over the *whole* dataset `data`. -/
def gptEntriesAux (data : List Film) : List Film → Option (List (Str × ℚ × ℚ))
  | [] => some []
  | m :: rest =>
    let actors := splitCS m.actors
    match optMap (fun a => gptHighest a data) actors with
    | none => none
    | some ars =>
      if ars.length = 0 then none
      else
        (gptEntriesAux data rest).map
          (fun tl => (m.title, m.rating, ars.sum / (ars.length : ℚ)) :: tl)

/-- gptproject's `top_n(data, genre, n)`: filter by genre, compute the
triples (actor maxima over the unfiltered `data`), sort by
`(-combined, title)`, truncate (`[:n or None]`), and project to
`(title, combined)` pairs. -/
def gptTopN (data : List Film) (genre : Str) (n : Nat) :
    Option (List (Str × ℚ)) :=
  (gptEntriesAux data (data.filter (gptPass (gptGenreList genre)))).map
    (fun mr =>
      let srt := sortBy keyLe mr
      (if n > 0 then srt.take n else srt).map (fun t => (t.1, combinedOf t)))

/-! ### read_file in both sources -/

/-- How both sources turn a data line into the returned record:
`line.strip().split(';')`. -/
def parseRow (l : Str) : List Str := splitOnChar ';' (pyStrip l)

/-- gptproject's loop over the data lines (the header is already removed):
strip and split each line, parse field 6 as an integer (always, even when
`year == 0`), and keep the row iff `year == 0 or movie_year >= year`.
An out-of-range index or a failed `int` raises, modelled as `none`. -/
def gptReadAux (year : Int) : List Str → Option (List (List Str))
  | [] => some []
  | line :: rest =>
    let row := splitOnChar ';' (pyStrip line)
    match row.get? 6 with
    | none => none
    | some f =>
      match pyInt f with
      | none => none
      | some my =>
        (gptReadAux year rest).map
          (fun tl => if year = 0 ∨ my ≥ year then row :: tl else tl)

/-- gptproject's `read_file`, with the file contents given as its list of
lines: skip the header line, then process every data line. -/
def gptReadFile (lines : List Str) (year : Int) : Option (List (List Str)) :=
  gptReadAux year (lines.drop 1)

/-- teamproject's comprehension over the data lines: the filter parses
field 6 of the *unstripped* line and keeps the line iff
`int(line.split(";")[6]) >= year` (no special case for `year == 0`); kept
lines are returned as `line.strip().split(";")`. -/
def teamReadAux (year : Int) : List Str → Option (List (List Str))
  | [] => some []
  | line :: rest =>
    match (splitOnChar ';' line).get? 6 with
    | none => none
    | some f =>
      match pyInt f with
      | none => none
      | some my =>
        (teamReadAux year rest).map
          (fun tl => if my ≥ year then splitOnChar ';' (pyStrip line) :: tl else tl)

/-- teamproject's `read_file`, with the file contents given as its list of
lines: `file.readline()` discards the header, the comprehension handles
the rest. -/
def teamReadFile (lines : List Str) (year : Int) : Option (List (List Str)) :=
  teamReadAux year (lines.drop 1)

/-- A data line on which both `read_file` implementations abort: fewer
than 7 semicolon-separated fields, or a field 6 that `int` rejects. -/
def malformedLine (l : Str) : Bool :=
  (splitOnChar ';' l).length < 7 || (pyInt ((splitOnChar ';' l).getD 6 [])).isNone

/-! ### write_file in both sources -/

/-- One output line `f"{title}, {rating}\n"`; the default float-to-string
rendering of the rating is abstracted as `render`. -/
def writeLine (render : ℚ → Str) (e : Str × ℚ) : Str :=
  e.1 ++ [',', ' '] ++ render e.2 ++ ['\n']

/-- gptproject's `write_file`, as the list of lines written. -/
def gptWriteFile (render : ℚ → Str) (top : List (Str × ℚ)) : List Str :=
  top.map (writeLine render)

/-- teamproject's `write_file`, as the list of lines written; its body is
the same f-string loop as gptproject's. -/
def teamWriteFile (render : ℚ → Str) (top : List (Str × ℚ)) : List Str :=
  top.map (writeLine render)

/-! ### Value-level pipelines

Both `top_n` embeddings return `Option`; the following total functions
compute the values the pipelines produce when no exception occurs, and are
proved below to coincide with them. -/

/-- Dictionary lookup as a total function (defaulting to `0`; the default
is never used, as proved below). -/
def teamLookupV (dict : List (Str × ℚ)) (a : Str) : ℚ := (dictFind dict a).getD 0

/-- teamproject's `average_actor_rating` of a film, as a total value. -/
def teamAvgV (dict : List (Str × ℚ)) (f : Film) : ℚ :=
  ((splitCS f.actors).map (teamLookupV dict)).sum / ((splitCS f.actors).length : ℚ)

/-- The `(title, rating, actor_rating)` triples teamproject collects. -/
def teamTriples (data : List Film) (genre : Str) : List (Str × ℚ × ℚ) :=
  (data.filter (teamPass genre)).map
    (fun f => (f.title, f.rating, teamAvgV (teamDict data) f))

/-- teamproject's `top_n` as a total value. -/
def teamTopNV (data : List Film) (genre : Str) (n : Nat) : List (Str × ℚ) :=
  let pairs := (sortBy keyLe (teamTriples data genre)).map (fun t => (t.1, combinedOf t))
  if n > 0 then pairs.take n else pairs

/-- gptproject's per-actor maximum as a total value. -/
def gptHighestV (a : Str) (data : List Film) : ℚ := (gptHighest a data).getD 0

/-- gptproject's `actor_rating` of a film, as a total value. -/
def gptAvgV (data : List Film) (f : Film) : ℚ :=
  ((splitCS f.actors).map (fun a => gptHighestV a data)).sum /
    (((splitCS f.actors).length : ℚ))

/-- The `(title, rating, actor_rating)` triples gptproject collects. -/
def gptTriples (data : List Film) (genre : Str) : List (Str × ℚ × ℚ) :=
  (data.filter (gptPass (gptGenreList genre))).map
    (fun f => (f.title, f.rating, gptAvgV data f))

/-- gptproject's `top_n` as a total value. -/
def gptTopNV (data : List Film) (genre : Str) (n : Nat) : List (Str × ℚ) :=
  let srt := sortBy keyLe (gptTriples data genre)
  (if n > 0 then srt.take n else srt).map (fun t => (t.1, combinedOf t))

/-! ### Definitions written from the specification's words

The following `spec…` definitions transcribe the claims' own wording (not
the source code), for comparison with the embeddings above. -/

/-- Merge of two optional ratings by maximum (`none` is the unit). -/
def combineMax : Option ℚ → Option ℚ → Option ℚ
  | none, y => y
  | some x, none => some x
  | some x, some y => some (max x y)

/-- Specification wording: `index[a]` is the maximum rating over all
movies in the dataset whose actor field, split on `", "`, contains `a`
exactly as a whole name; `none` when no movie credits `a`. -/
def specActorIndex : List Film → Str → Option ℚ
  | [], _ => none
  | f :: rest, a =>
    if a ∈ splitCS f.actors then combineMax (some f.rating) (specActorIndex rest a)
    else specActorIndex rest a

/-- Sum of specification index values over a list of actor names. -/
def specSum (data : List Film) : List Str → Option ℚ
  | [] => some 0
  | a :: rest =>
    match specActorIndex data a with
    | none => none
    | some v => (specSum data rest).map (fun s => v + s)

/-- Specification wording: a movie's combined score is
`(movie.rating + actorAvg) / 2` where `actorAvg` is the arithmetic mean of
`index[a]` over the movie's actor names. -/
def specCombined (data : List Film) (f : Film) : Option ℚ :=
  (specSum data (splitCS f.actors)).map
    (fun s => (f.rating + s / ((splitCS f.actors).length : ℚ)) / 2)

/-- Specification wording of the genre filter: a movie passes iff the
filter string is empty, or some token of the filter (split on `","`) is
exactly equal to one of the movie's genre tokens (its genre field split on
`","`). -/
def specPass (genre : Str) (f : Film) : Bool :=
  genre = [] || (splitOnChar ',' genre).any (fun t => memStr t (splitOnChar ',' f.genres))

/-- gptproject's actual genre semantics, for the amended claim: a movie
passes iff the filter is empty or some stripped filter token occurs as a
substring of the raw genre field. -/
def gptSubstrPass (genre : Str) (f : Film) : Bool :=
  genre = [] || ((splitOnChar ',' genre).map pyStrip).any (fun t => strContains f.genres t)

/-- teamproject's entry collection with no genre test, used to state that
genre filtering only selects which films appear. -/
def teamEntriesAll (dict : List (Str × ℚ)) : List Film → Option (List (Str × ℚ × ℚ))
  | [] => some []
  | film :: rest =>
    let actors := splitCS film.actors
    match sumLookups dict actors with
    | none => none
    | some s =>
      if actors.length = 0 then none
      else
        (teamEntriesAll dict rest).map
          (fun tl => (film.title, film.rating, s / (actors.length : ℚ)) :: tl)

/-- teamproject's ranking pipeline applied to an explicitly given list of
films to rank, with the actor dictionary still built from `data`. -/
def teamRank (data films : List Film) (n : Nat) : Option (List (Str × ℚ)) :=
  (teamEntriesAll (teamDict data) films).map
    (fun answer =>
      let pairs := (sortBy keyLe answer).map (fun t => (t.1, combinedOf t))
      if n > 0 then pairs.take n else pairs)

/-- gptproject's ranking pipeline applied to an explicitly given list of
films to rank, with the actor maxima still taken over `data`. -/
def gptRank (data films : List Film) (n : Nat) : Option (List (Str × ℚ)) :=
  (gptEntriesAux data films).map
    (fun mr =>
      let srt := sortBy keyLe mr
      (if n > 0 then srt.take n else srt).map (fun t => (t.1, combinedOf t)))

/-- The ordering claimed for the report: scores are non-increasing, and
equal scores are tie-broken by non-decreasing title. -/
def reportOrder (e1 e2 : Str × ℚ) : Prop :=
  e2.2 ≤ e1.2 ∧ (e1.2 = e2.2 → strLe e1.1 e2.1 = true)

/-! ### Concrete inputs for witnesses and counterexamples -/

/-- A film titled `A` of genre `Action`, sole actor `X`, rating `8`. -/
def filmAction : Film := ⟨['A'], ['A','c','t','i','o','n'], ['X'], 8⟩

/-- A film titled `A` of genre `G`, sole actor `Ann`, rating `3`. -/
def filmAnn : Film := ⟨['A'], ['G'], ['A','n','n'], 3⟩

/-- A film titled `B` of genre `G`, sole actor `Annabel`, rating `9`. -/
def filmAnnabel : Film := ⟨['B'], ['G'], ['A','n','n','a','b','e','l'], 9⟩

/-- A film titled `A` of genre `G` with an empty actor field, rating `4`. -/
def filmNoActors : Film := ⟨['A'], ['G'], [], 4⟩

/-- A two-line input file whose single data row has year `-1`. -/
def negYearLines : List Str :=
  [['h'], ['a',';','b',';','c',';','d',';','e',';','f',';','-','1',';','x']]

/-- A two-line input file whose single data row has only two fields. -/
def badLines : List Str := [['h'], ['a',';','b']]

/-- Append a suffix to the last part of a list of parts (how a separator-free
suffix of a string shifts its split). -/
def appendLast (s : Str) : List Str → List Str
  | [] => []
  | [x] => [x ++ s]
  | x :: y :: t => x :: appendLast s (y :: t)

/-- gptproject's keep-condition for a data line, defined when the line is
well-formed: `year == 0 or int(row[6]) >= year` on the stripped row. -/
def gptKeep (year : Int) (l : Str) : Bool :=
  year = 0 ||
    (match pyInt ((splitOnChar ';' (pyStrip l)).getD 6 []) with
     | some my => my ≥ year
     | none => false)

/-- teamproject's keep-condition for a data line, defined when the line is
well-formed: `int(line.split(";")[6]) >= year` on the unstripped line. -/
def teamKeep (year : Int) (l : Str) : Bool :=
  match pyInt ((splitOnChar ';' l).getD 6 []) with
  | some my => my ≥ year
  | none => false

/-- A two-line input file whose single data row has year `2016`. -/
def yearLines : List Str :=
  [['h'],
   ['a',';','b',';','c',';','d',';','e',';','f',';','2','0','1','6',';','x']]

/-! ### Lemmas about splitting -/

/-- Splitting on a character never yields an empty list of parts. -/
theorem splitOnChar_ne_nil (sep : Char) (s : Str) : splitOnChar sep s ≠ [] := by
  induction s using splitOnChar.induct sep with
  | case1 => simp [splitOnChar]
  | case2 rest ih => simp [splitOnChar]
  | case3 c rest h heq ih => simp_all [splitOnChar, h]
  | case4 c rest h t ts heq ih => simp_all [splitOnChar, h]

/-- A split with a single part is the whole string. -/
theorem splitOnChar_singleton (sep : Char) (s t : Str)
    (h : splitOnChar sep s = [t]) : s = t := by
  induction s using splitOnChar.induct sep generalizing t with
  | case1 => simp [splitOnChar] at h; simp [h]
  | case2 rest ih =>
    rw [splitOnChar, if_pos rfl] at h
    exact absurd (List.cons.inj h).2 (splitOnChar_ne_nil sep rest)
  | case3 c rest h' heq ih => exact absurd heq (splitOnChar_ne_nil sep rest)
  | case4 c rest h' t' ts heq ih =>
    rw [splitOnChar, if_neg h', heq] at h
    obtain ⟨h1, h2⟩ := List.cons.inj h
    subst h1
    cases h2
    have := ih (t := t') (by rw [heq])
    simp [← this]

/-- Splitting on comma-space never yields an empty list of parts: every
actor field parses to at least one (possibly empty) actor name. -/
theorem splitCS_ne_nil (s : Str) : splitCS s ≠ [] := by
  induction s using splitCS.induct with
  | case1 => simp [splitCS]
  | case2 c => simp [splitCS]
  | case3 c1 c2 rest h ih => simp [splitCS, h]
  | case4 c1 c2 rest h heq ih => simp_all [splitCS, if_neg h]
  | case5 c1 c2 rest h t ts heq ih => simp_all [splitCS, if_neg h]

/-- The first part of a comma-space split is a prefix of the string, and
every part is a contiguous segment of it. -/
theorem splitCS_parts (s : Str) :
    ((splitCS s).headD [] <+: s) ∧ ∀ t ∈ splitCS s, t <:+: s := by
  induction s using splitCS.induct with
  | case1 =>
    constructor
    · simp [splitCS]
    · intro t ht; simp [splitCS] at ht; simp [ht]
  | case2 c =>
    constructor
    · simp [splitCS]
    · intro t ht; simp [splitCS] at ht; simp [ht]
  | case3 c1 c2 rest h ih =>
    constructor
    · simp [splitCS, h, List.nil_prefix]
    · intro t ht
      rw [splitCS, if_pos h] at ht
      rcases List.mem_cons.mp ht with rfl | ht
      · exact List.nil_infix
      · exact (ih.2 t ht).trans
          ((List.suffix_cons c2 rest).isInfix.trans (List.suffix_cons c1 _).isInfix)
  | case4 c1 c2 rest h heq ih => exact absurd heq (splitCS_ne_nil _)
  | case5 c1 c2 rest h t ts heq ih =>
    have hhead : t <+: c2 :: rest := by
      have := ih.1; rw [heq] at this; simpa using this
    constructor
    · rw [splitCS, if_neg h, heq]
      obtain ⟨r, hr⟩ := hhead
      exact ⟨r, by simp [← hr]⟩
    · intro u hu
      rw [splitCS, if_neg h, heq] at hu
      rcases List.mem_cons.mp hu with rfl | hu
      · obtain ⟨r, hr⟩ := hhead
        exact List.IsPrefix.isInfix ⟨r, by simp [← hr]⟩
      · exact (ih.2 u (by rw [heq]; exact List.mem_cons_of_mem t hu)).trans
          (List.suffix_cons c1 _).isInfix

/-- Every actor name produced by splitting an actor field is a substring
of that field. -/
theorem mem_splitCS_infix (s t : Str) (h : t ∈ splitCS s) : t <:+: s :=
  (splitCS_parts s).2 t h

/-! ### Lemmas about the stable sort -/

/-- Membership in an insertion step. -/
theorem mem_insertSorted (le : α → α → Bool) (x a : α) (l : List α) :
    a ∈ insertSorted le x l ↔ a = x ∨ a ∈ l := by
  induction l with
  | nil => simp [insertSorted]
  | cons y ys ih =>
    simp only [insertSorted]
    split
    · simp [List.mem_cons]
    · simp [List.mem_cons, ih]
      tauto

/-- Insertion permutes the cons. -/
theorem insertSorted_perm (le : α → α → Bool) (x : α) (l : List α) :
    List.Perm (insertSorted le x l) (x :: l) := by
  induction l with
  | nil => rfl
  | cons y ys ih =>
    simp only [insertSorted]
    split
    · rfl
    · exact (ih.cons y).trans (List.Perm.swap x y ys)

/-- The sort permutes its input. -/
theorem sortBy_perm (le : α → α → Bool) (l : List α) : List.Perm (sortBy le l) l := by
  induction l with
  | nil => rfl
  | cons x xs ih => exact (insertSorted_perm le x (sortBy le xs)).trans (ih.cons x)

/-- The sort preserves length. -/
theorem sortBy_length (le : α → α → Bool) (l : List α) :
    (sortBy le l).length = l.length :=
  (sortBy_perm le l).length_eq

/-- Inserting into a list sorted by a total, transitive comparison keeps
it sorted. -/
theorem pairwise_insertSorted (le : α → α → Bool)
    (tot : ∀ a b, le a b = true ∨ le b a = true)
    (htr : ∀ a b c, le a b = true → le b c = true → le a c = true)
    (x : α) (l : List α) (hl : l.Pairwise (fun a b => le a b = true)) :
    (insertSorted le x l).Pairwise (fun a b => le a b = true) := by
  induction l with
  | nil => simp [insertSorted]
  | cons y ys ih =>
    rcases List.pairwise_cons.mp hl with ⟨hy, hys⟩
    simp only [insertSorted]
    split
    · next hxy =>
      refine List.pairwise_cons.mpr ⟨?_, hl⟩
      intro b hb
      rcases List.mem_cons.mp hb with rfl | hb
      · exact hxy
      · exact htr x y b hxy (hy b hb)
    · next hxy =>
      have hyx : le y x = true := by
        rcases tot x y with h | h
        · exact absurd h hxy
        · exact h
      refine List.pairwise_cons.mpr ⟨?_, ih hys⟩
      intro b hb
      rcases (mem_insertSorted le x b ys).mp hb with rfl | hb
      · exact hyx
      · exact hy b hb

/-- The result of the sort is sorted. -/
theorem sortBy_pairwise (le : α → α → Bool)
    (tot : ∀ a b, le a b = true ∨ le b a = true)
    (htr : ∀ a b c, le a b = true → le b c = true → le a c = true)
    (l : List α) : (sortBy le l).Pairwise (fun a b => le a b = true) := by
  induction l with
  | nil => simp [sortBy]
  | cons x xs ih => exact pairwise_insertSorted le tot htr x (sortBy le xs) ih

/-! ### The sort key is a total preorder -/

/-- Transitivity of the lexicographic strict order on strings. -/
theorem strLt_trans (a b c : Str) (hab : strLt a b = true)
    (hbc : strLt b c = true) : strLt a c = true := by
  induction a generalizing b c with
  | nil =>
    cases b with
    | nil => simp [strLt] at hab
    | cons y ys =>
      cases c with
      | nil => simp [strLt] at hbc
      | cons z zs => simp [strLt]
  | cons x xs ih =>
    cases b with
    | nil => simp [strLt] at hab
    | cons y ys =>
      cases c with
      | nil => simp [strLt] at hbc
      | cons z zs =>
        simp only [strLt, Bool.or_eq_true, Bool.and_eq_true,
          decide_eq_true_eq] at hab hbc ⊢
        rcases hab with h1 | ⟨rfl, h1⟩
        · rcases hbc with h2 | ⟨rfl, h2⟩
          · exact Or.inl (lt_trans h1 h2)
          · exact Or.inl h1
        · rcases hbc with h2 | ⟨rfl, h2⟩
          · exact Or.inl h2
          · exact Or.inr ⟨rfl, ih ys zs h1 h2⟩

/-- Totality of the lexicographic order on strings. -/
theorem strLt_total (a b : Str) :
    strLt a b = true ∨ strLt b a = true ∨ a = b := by
  induction a generalizing b with
  | nil =>
    cases b with
    | nil => simp [strLt]
    | cons y ys => simp [strLt]
  | cons x xs ih =>
    cases b with
    | nil => simp [strLt]
    | cons y ys =>
      rcases lt_trichotomy x y with h | rfl | h
      · exact Or.inl (by simp [strLt, h])
      · rcases ih ys with h | h | rfl
        · exact Or.inl (by simp [strLt, h])
        · exact Or.inr (Or.inl (by simp [strLt, h]))
        · exact Or.inr (Or.inr rfl)
      · exact Or.inr (Or.inl (by simp [strLt, h]))

/-- Transitivity of `strLe`. -/
theorem strLe_trans (a b c : Str) (hab : strLe a b = true)
    (hbc : strLe b c = true) : strLe a c = true := by
  simp only [strLe, Bool.or_eq_true, decide_eq_true_eq] at hab hbc ⊢
  rcases hab with h1 | rfl
  · rcases hbc with h2 | rfl
    · exact Or.inl (strLt_trans a b c h1 h2)
    · exact Or.inl h1
  · exact hbc

/-- Totality of `strLe`. -/
theorem strLe_total (a b : Str) : strLe a b = true ∨ strLe b a = true := by
  rcases strLt_total a b with h | h | rfl
  · exact Or.inl (by simp [strLe, h])
  · exact Or.inr (by simp [strLe, h])
  · exact Or.inl (by simp [strLe])

/-- Totality of the sort key comparison. -/
theorem keyLe_total (x y : Str × ℚ × ℚ) :
    keyLe x y = true ∨ keyLe y x = true := by
  rcases lt_trichotomy (-combinedOf x) (-combinedOf y) with h | h | h
  · exact Or.inl (by simp [keyLe, h])
  · rcases strLe_total x.1 y.1 with h' | h'
    · exact Or.inl (by simp [keyLe, h, h'])
    · exact Or.inr (by simp [keyLe, h.symm, h'])
  · exact Or.inr (by simp [keyLe, h])

/-- Transitivity of the sort key comparison. -/
theorem keyLe_trans (x y z : Str × ℚ × ℚ) (hxy : keyLe x y = true)
    (hyz : keyLe y z = true) : keyLe x z = true := by
  simp only [keyLe, Bool.or_eq_true, Bool.and_eq_true, decide_eq_true_eq]
    at hxy hyz ⊢
  rcases hxy with h1 | ⟨h1, h1'⟩
  · rcases hyz with h2 | ⟨h2, h2'⟩
    · exact Or.inl (lt_trans h1 h2)
    · exact Or.inl (h2 ▸ h1)
  · rcases hyz with h2 | ⟨h2, h2'⟩
    · exact Or.inl (h1 ▸ h2)
    · exact Or.inr ⟨h1.trans h2, strLe_trans x.1 y.1 z.1 h1' h2'⟩

/-! ### The actor dictionary computes the specification index -/

/-- `none` is a left unit for `combineMax`. -/
theorem combineMax_none_left (y : Option ℚ) : combineMax none y = y := rfl

/-- `none` is a right unit for `combineMax`. -/
theorem combineMax_none_right (x : Option ℚ) : combineMax x none = x := by
  cases x <;> rfl

/-- `combineMax` is associative. -/
theorem combineMax_assoc (x y z : Option ℚ) :
    combineMax (combineMax x y) z = combineMax x (combineMax y z) := by
  cases x <;> cases y <;> cases z <;> simp [combineMax, max_assoc]

/-- Merging the same rating twice is the same as merging it once. -/
theorem combineMax_absorb (x : Option ℚ) (r : ℚ) :
    combineMax (combineMax x (some r)) (some r) = combineMax x (some r) := by
  cases x <;> simp [combineMax, max_assoc]

/-- A merge with a defined left argument is defined. -/
theorem combineMax_some_left (x : ℚ) (y : Option ℚ) :
    (combineMax (some x) y).isSome := by
  cases y <;> simp [combineMax]

/-- Lookup after a dictionary assignment. -/
theorem dictFind_insert (d : List (Str × ℚ)) (k a : Str) (v : ℚ) :
    dictFind (dictInsert d k v) a = if k = a then some v else dictFind d a := by
  induction d with
  | nil => simp [dictInsert, dictFind]
  | cons p rest ih =>
    obtain ⟨k', v'⟩ := p
    simp only [dictInsert]
    by_cases h1 : k' = k
    · subst h1
      by_cases h2 : k' = a <;> simp [dictFind, h2]
    · simp only [if_neg h1, dictFind]
      by_cases h2 : k' = a
      · subst h2
        have hka : ¬k = k' := fun hh => h1 hh.symm
        simp [hka]
      · simp [h2, ih]

/-- Lookup after one step of teamproject's index construction. -/
theorem teamInsertActor_find (d : List (Str × ℚ)) (r : ℚ) (k a : Str) :
    dictFind (teamInsertActor d r k) a =
      if k = a then combineMax (dictFind d a) (some r) else dictFind d a := by
  unfold teamInsertActor
  by_cases hk : k = a
  · subst hk
    cases h : dictFind d k <;> simp [dictFind_insert, h, combineMax]
  · cases h : dictFind d k <;> simp [dictFind_insert, hk]

/-- Lookup after folding one film's actors into the dictionary. -/
theorem foldInsert_find (r : ℚ) (as : List Str) (d : List (Str × ℚ)) (x : Str) :
    dictFind (as.foldl (fun d a => teamInsertActor d r a) d) x =
      if x ∈ as then combineMax (dictFind d x) (some r) else dictFind d x := by
  induction as generalizing d with
  | nil => simp
  | cons a as ih =>
    simp only [List.foldl_cons]
    rw [ih]
    by_cases hx : x = a
    · subst hx
      have h1 : dictFind (teamInsertActor d r x) x =
          combineMax (dictFind d x) (some r) := by
        simp [teamInsertActor_find]
      by_cases hmem : x ∈ as <;>
        simp [hmem, h1, combineMax_absorb, List.mem_cons]
    · have hax : ¬a = x := fun hh => hx hh.symm
      have h2 : dictFind (teamInsertActor d r a) x = dictFind d x := by
        simp [teamInsertActor_find, hax]
      simp [List.mem_cons, hx, h2]

/-- Lookup in the dictionary built by teamproject's first loop. -/
theorem teamBuildAux_find (data : List Film) (d : List (Str × ℚ)) (a : Str) :
    dictFind (teamBuildAux data d) a =
      combineMax (dictFind d a) (specActorIndex data a) := by
  induction data generalizing d with
  | nil => simp [teamBuildAux, specActorIndex, combineMax_none_right]
  | cons f rest ih =>
    simp only [teamBuildAux]
    rw [ih, foldInsert_find]
    by_cases h : a ∈ splitCS f.actors
    · simp [specActorIndex, h, combineMax_assoc]
    · simp [specActorIndex, h]

/-- teamproject's `actors_rating[a]` is exactly the specification's
`ActorRatingIndex[a]`: the maximum rating over the movies whose actor
field, split on `", "`, contains `a` as a whole name. -/
theorem teamDict_find (data : List Film) (a : Str) :
    dictFind (teamDict data) a = specActorIndex data a := by
  rw [teamDict, teamBuildAux_find]
  simp [dictFind, combineMax_none_left]

/-- The specification index is defined on every credited actor. -/
theorem specActorIndex_isSome (data : List Film) (f : Film) (a : Str)
    (hf : f ∈ data) (ha : a ∈ splitCS f.actors) :
    (specActorIndex data a).isSome := by
  induction data with
  | nil => cases hf
  | cons g rest ih =>
    rcases List.mem_cons.mp hf with rfl | hf
    · simp [specActorIndex, ha, combineMax_some_left]
    · by_cases h : a ∈ splitCS g.actors
      · simp [specActorIndex, h, combineMax_some_left]
      · simp [specActorIndex, h, ih hf]

/-! ### Totality and value of the ranking pipelines -/

/-- The dictionary built from a dataset has an entry for every actor
credited in it. -/
theorem teamDict_covers (data : List Film) (f : Film) (a : Str)
    (hf : f ∈ data) (ha : a ∈ splitCS f.actors) :
    (dictFind (teamDict data) a).isSome := by
  rw [teamDict_find]
  exact specActorIndex_isSome data f a hf ha

/-- When every lookup succeeds, the lookup sum is the sum of the looked-up
values. -/
theorem sumLookups_eq (d : List (Str × ℚ)) (as : List Str)
    (h : ∀ a ∈ as, (dictFind d a).isSome) :
    sumLookups d as = some ((as.map (teamLookupV d)).sum) := by
  induction as with
  | nil => simp [sumLookups]
  | cons a as ih =>
    obtain ⟨v, hv⟩ := Option.isSome_iff_exists.mp (h a (List.mem_cons_self a as))
    rw [sumLookups, hv, ih (fun b hb => h b (List.mem_cons_of_mem a hb))]
    simp [teamLookupV, hv]

/-- teamproject's entry loop, evaluated: with a dictionary covering all
credited actors it returns the genre-passing films' triples. -/
theorem teamEntriesAux_eq (dict : List (Str × ℚ)) (g : GenreArg)
    (films : List Film)
    (h : ∀ f ∈ films, ∀ a ∈ splitCS f.actors, (dictFind dict a).isSome) :
    teamEntriesAux dict g films =
      some ((films.filter (fun f => isInGenres (splitOnChar ',' f.genres) g)).map
        (fun f => (f.title, f.rating, teamAvgV dict f))) := by
  induction films with
  | nil => simp [teamEntriesAux]
  | cons f rest ih =>
    have hcov : ∀ a ∈ splitCS f.actors, (dictFind dict a).isSome :=
      fun a ha => h f (List.mem_cons_self f rest) a ha
    have hrest := fun f' hf' => h f' (List.mem_cons_of_mem f hf')
    have hlen : ¬(splitCS f.actors).length = 0 := by
      simpa [List.length_eq_zero] using splitCS_ne_nil f.actors
    simp only [teamEntriesAux]
    rw [sumLookups_eq dict _ hcov, ih hrest]
    by_cases hp : isInGenres (splitOnChar ',' f.genres) g = true
    · simp [hp, hlen, List.filter_cons, teamAvgV]
    · simp only [Bool.not_eq_true] at hp
      simp [hp, List.filter_cons]

/-- teamproject's `top_n` never raises: it returns exactly the value
pipeline's result. -/
theorem teamTopN_eq (data : List Film) (genre : Str) (n : Nat) :
    teamTopN data genre n = some (teamTopNV data genre n) := by
  rw [teamTopN, teamEntriesAux_eq (teamDict data) (teamGenreNorm genre) data
    (fun f hf a ha => teamDict_covers data f a hf ha)]
  rfl

/-- gptproject's per-actor maximum is defined on every credited actor:
the actor's own film passes the substring test. -/
theorem gptHighest_isSome (data : List Film) (f : Film) (a : Str)
    (hf : f ∈ data) (ha : a ∈ splitCS f.actors) :
    (gptHighest a data).isSome := by
  have hin : strContains f.actors a = true := by
    simp only [strContains, decide_eq_true_eq]
    exact mem_splitCS_infix _ _ ha
  have hmem : f.rating ∈ (data.filter (fun m => strContains m.actors a)).map Film.rating :=
    List.mem_map.mpr ⟨f, List.mem_filter.mpr ⟨hf, hin⟩, rfl⟩
  unfold gptHighest
  cases hmap : (data.filter (fun m => strContains m.actors a)).map Film.rating with
  | nil => rw [hmap] at hmem; cases hmem
  | cons r rs => simp

/-- When every element evaluates, `optMap` is the plain map. -/
theorem optMap_eq (f : Str → Option ℚ) (as : List Str)
    (h : ∀ a ∈ as, (f a).isSome) :
    optMap f as = some (as.map (fun a => (f a).getD 0)) := by
  induction as with
  | nil => simp [optMap]
  | cons a as ih =>
    obtain ⟨v, hv⟩ := Option.isSome_iff_exists.mp (h a (List.mem_cons_self a as))
    rw [optMap, hv, ih (fun b hb => h b (List.mem_cons_of_mem a hb))]
    simp [hv]

/-- gptproject's entry loop, evaluated: it returns the given films'
triples, with actor maxima taken over `data`. -/
theorem gptEntriesAux_eq (data films : List Film)
    (h : ∀ f ∈ films, ∀ a ∈ splitCS f.actors, (gptHighest a data).isSome) :
    gptEntriesAux data films =
      some (films.map (fun f => (f.title, f.rating, gptAvgV data f))) := by
  induction films with
  | nil => simp [gptEntriesAux]
  | cons f rest ih =>
    have hcov : ∀ a ∈ splitCS f.actors, (gptHighest a data).isSome :=
      fun a ha => h f (List.mem_cons_self f rest) a ha
    have hrest := fun f' hf' => h f' (List.mem_cons_of_mem f hf')
    have hlen : ¬((splitCS f.actors).map (fun a => (gptHighest a data).getD 0)).length = 0 := by
      simpa [List.length_map, List.length_eq_zero] using splitCS_ne_nil f.actors
    simp only [gptEntriesAux]
    rw [optMap_eq _ _ hcov, ih hrest]
    simp [hlen, gptAvgV, gptHighestV, splitCS_ne_nil]

/-- gptproject's `top_n` never raises: it returns exactly the value
pipeline's result. -/
theorem gptTopN_eq (data : List Film) (genre : Str) (n : Nat) :
    gptTopN data genre n = some (gptTopNV data genre n) := by
  rw [gptTopN, gptEntriesAux_eq data _ (fun f hf a ha =>
    gptHighest_isSome data f a (List.mem_of_mem_filter hf) ha)]
  simp [gptTopNV, gptTriples]

/-- teamproject's entry loop is its unfiltered entry loop applied to the
films passing the genre test. -/
theorem teamEntriesAux_filter (dict : List (Str × ℚ)) (g : GenreArg)
    (films : List Film) :
    teamEntriesAux dict g films =
      teamEntriesAll dict
        (films.filter (fun f => isInGenres (splitOnChar ',' f.genres) g)) := by
  induction films with
  | nil => rfl
  | cons f rest ih =>
    simp only [teamEntriesAux, List.filter_cons]
    by_cases hp : isInGenres (splitOnChar ',' f.genres) g = true
    · simp only [hp, if_true, if_pos]
      simp [teamEntriesAll, ih]
    · simp only [Bool.not_eq_true] at hp
      simp [hp, ih]

/-! ### Genre predicates -/

/-- teamproject's genre test is exactly the specification's: tokenise the
filter on `","` and test exact membership among the film's genre tokens,
with the empty filter passing everything. -/
theorem teamPass_eq_specPass (genre : Str) (f : Film) :
    teamPass genre f = specPass genre f := by
  unfold teamPass teamGenreNorm specPass
  cases hsplit : splitOnChar ',' genre with
  | nil => exact absurd hsplit (splitOnChar_ne_nil ',' genre)
  | cons t ts =>
    cases ts with
    | nil =>
      have hgt : genre = t := splitOnChar_singleton ',' genre t hsplit
      subst hgt
      by_cases hg : genre = []
      · simp [hsplit, isInGenres, joinAll, hg]
      · simp [hsplit, isInGenres, joinAll, hg]
    | cons t2 ts2 =>
      have hg : ¬genre = [] := by
        intro hh
        subst hh
        simp [splitOnChar] at hsplit
      simp [hsplit, isInGenres, hg]

/-- gptproject's genre test is substring containment of each stripped
filter token in the raw genre field, with the empty filter passing
everything. -/
theorem gptPass_eq_substr (genre : Str) (f : Film) :
    gptPass (gptGenreList genre) f = gptSubstrPass genre f := by
  unfold gptPass gptGenreList gptSubstrPass
  by_cases hg : genre = []
  · simp [hg]
  · cases hsplit : splitOnChar ',' genre with
    | nil => exact absurd hsplit (splitOnChar_ne_nil ',' genre)
    | cons t ts => simp [hg, hsplit]

/-- The empty filter passes every film (specification predicate). -/
theorem specPass_nil (f : Film) : specPass [] f = true := by
  simp [specPass]

/-- The empty filter passes every film (gptproject's substring predicate). -/
theorem gptSubstrPass_nil (f : Film) : gptSubstrPass [] f = true := by
  simp [gptSubstrPass]

/-- The empty filter passes every film in teamproject. -/
theorem teamPass_nil (f : Film) : teamPass [] f = true := by
  rw [teamPass_eq_specPass]
  exact specPass_nil f

/-- The empty filter passes every film in gptproject. -/
theorem gptPass_nil (f : Film) : gptPass (gptGenreList []) f = true := by
  rw [gptPass_eq_substr]
  exact gptSubstrPass_nil f

/-- teamproject's `top_n` ranks exactly the films selected by the
specification's genre predicate. -/
theorem teamTopN_rank (data : List Film) (g : Str) (n : Nat) :
    teamTopN data g n = teamRank data (data.filter (specPass g)) n := by
  rw [teamTopN, teamRank, teamEntriesAux_filter]
  have hfun : (fun f => isInGenres (splitOnChar ',' f.genres) (teamGenreNorm g)) =
      specPass g := by
    funext f
    exact teamPass_eq_specPass g f
  rw [hfun]

/-- gptproject's `top_n` ranks exactly the films selected by its substring
genre predicate. -/
theorem gptTopN_rank (data : List Film) (g : Str) (n : Nat) :
    gptTopN data g n = gptRank data (data.filter (gptSubstrPass g)) n := by
  rw [gptTopN, gptRank]
  have hfun : gptPass (gptGenreList g) = gptSubstrPass g := by
    funext f
    exact gptPass_eq_substr g f
  rw [hfun]

/-! ### Stripping versus splitting on semicolons -/

/-- Whitespace characters are not semicolons. -/
theorem space_ne_semi (c : Char) (h : isSpaceChar c = true) : ¬c = ';' := by
  intro he
  subst he
  exact absurd h (by decide)

/-- Splitting at a leading separator. -/
theorem splitOnChar_cons_sep (sep : Char) (rest : Str) :
    splitOnChar sep (sep :: rest) = [] :: splitOnChar sep rest := by
  rw [splitOnChar, if_pos rfl]

/-- Splitting at a leading non-separator character. -/
theorem splitOnChar_cons_ne (sep c : Char) (rest : Str) (hc : ¬c = sep) :
    splitOnChar sep (c :: rest) =
      (c :: (splitOnChar sep rest).headD []) :: (splitOnChar sep rest).tail := by
  rw [splitOnChar, if_neg hc]
  cases hsp : splitOnChar sep rest with
  | nil => exact absurd hsp (splitOnChar_ne_nil sep rest)
  | cons t ts => simp

/-- A string with no separator splits into a single part. -/
theorem splitOnChar_noSep (sep : Char) (s : Str) (h : ∀ c ∈ s, ¬c = sep) :
    splitOnChar sep s = [s] := by
  induction s with
  | nil => rfl
  | cons c rest ih =>
    rw [splitOnChar_cons_ne sep c rest (h c (List.mem_cons_self c rest)),
      ih (fun c' hc' => h c' (List.mem_cons_of_mem c hc'))]
    simp

/-- Splitting after a separator-free prefix: the prefix lands in the first
part. -/
theorem splitOnChar_append_left (sep : Char) (p l : Str)
    (h : ∀ c ∈ p, ¬c = sep) :
    splitOnChar sep (p ++ l) =
      (p ++ (splitOnChar sep l).headD []) :: (splitOnChar sep l).tail := by
  induction p with
  | nil =>
    cases hsp : splitOnChar sep l with
    | nil => exact absurd hsp (splitOnChar_ne_nil sep l)
    | cons t ts => simp [hsp]
  | cons c p ih =>
    rw [List.cons_append,
      splitOnChar_cons_ne sep c (p ++ l) (h c (List.mem_cons_self c p)),
      ih (fun c' hc' => h c' (List.mem_cons_of_mem c hc'))]
    simp

/-- Splitting before a separator-free suffix: the suffix lands in the last
part. -/
theorem splitOnChar_append_right (sep : Char) (l s : Str)
    (h : ∀ c ∈ s, ¬c = sep) :
    splitOnChar sep (l ++ s) = appendLast s (splitOnChar sep l) := by
  induction l with
  | nil =>
    rw [List.nil_append, splitOnChar_noSep sep s h]
    rfl
  | cons c l ih =>
    by_cases hc : c = sep
    · subst hc
      rw [List.cons_append, splitOnChar_cons_sep, ih, splitOnChar_cons_sep]
      cases hsp : splitOnChar c l with
      | nil => exact absurd hsp (splitOnChar_ne_nil c l)
      | cons t ts => rfl
    · rw [List.cons_append, splitOnChar_cons_ne sep c (l ++ s) hc, ih,
        splitOnChar_cons_ne sep c l hc]
      cases hsp : splitOnChar sep l with
      | nil => exact absurd hsp (splitOnChar_ne_nil sep l)
      | cons t ts =>
        cases ts with
        | nil => simp [appendLast]
        | cons t2 ts2 => simp [appendLast]

/-- Appending to the last part preserves the number of parts. -/
theorem appendLast_length (s : Str) (l : List Str) :
    (appendLast s l).length = l.length := by
  induction l with
  | nil => rfl
  | cons x xs ih =>
    cases xs with
    | nil => rfl
    | cons y t =>
      simp only [appendLast, List.length_cons] at ih ⊢
      rw [ih]

/-- Appending to the last part only changes the last part. -/
theorem appendLast_getD (s : Str) (l : List Str) (i : Nat) :
    (appendLast s l).getD i [] =
      if i + 1 = l.length then l.getD i [] ++ s else l.getD i [] := by
  induction l generalizing i with
  | nil => simp [appendLast]
  | cons x xs ih =>
    cases xs with
    | nil =>
      cases i with
      | zero => simp [appendLast]
      | succ j => simp [appendLast]
    | cons y t =>
      cases i with
      | zero =>
        simp only [appendLast, List.getD_cons_zero, List.length_cons]
        rw [if_neg (by omega)]
      | succ j =>
        simp only [appendLast, List.getD_cons_succ, List.length_cons]
        rw [ih j]
        simp only [List.length_cons]
        by_cases hj : j + 1 = t.length + 1
        · rw [if_pos hj, if_pos (by omega)]
        · rw [if_neg hj, if_neg (by omega)]

/-- Every string decomposes as whitespace, its strip, and whitespace. -/
theorem strip_decomp (l : Str) :
    ∃ p s, l = p ++ pyStrip l ++ s ∧ (∀ c ∈ p, isSpaceChar c = true) ∧
      (∀ c ∈ s, isSpaceChar c = true) := by
  refine ⟨l.takeWhile isSpaceChar,
    ((l.dropWhile isSpaceChar).reverse.takeWhile isSpaceChar).reverse,
    ?_, ?_, ?_⟩
  · conv_lhs => rw [← List.takeWhile_append_dropWhile (p := isSpaceChar) (l := l)]
    rw [List.append_assoc]
    congr 1
    rw [pyStrip, ← List.reverse_append, List.takeWhile_append_dropWhile,
      List.reverse_reverse]
  · exact fun c hc => List.mem_takeWhile_imp hc
  · intro c hc
    rw [List.mem_reverse] at hc
    exact List.mem_takeWhile_imp hc

/-- Stripping ignores a trailing whitespace run. -/
theorem pyStrip_append_ws (x s : Str) (h : ∀ c ∈ s, isSpaceChar c = true) :
    pyStrip (x ++ s) = pyStrip x := by
  have hs : s.dropWhile isSpaceChar = [] := List.dropWhile_eq_nil_iff.mpr h
  rw [pyStrip, pyStrip, List.dropWhile_append]
  by_cases hx : (x.dropWhile isSpaceChar).isEmpty = true
  · rw [if_pos hx, hs]
    have hx' : x.dropWhile isSpaceChar = [] := by
      cases hxx : x.dropWhile isSpaceChar with
      | nil => rfl
      | cons a t => rw [hxx] at hx; simp at hx
    rw [hx']
  · rw [if_neg hx, List.reverse_append, List.dropWhile_append]
    have hsrev : s.reverse.dropWhile isSpaceChar = [] :=
      List.dropWhile_eq_nil_iff.mpr (fun c hc => h c (List.mem_reverse.mp hc))
    simp [hsrev]

/-- `int` ignores a trailing whitespace run. -/
theorem pyInt_append_ws (x s : Str) (h : ∀ c ∈ s, isSpaceChar c = true) :
    pyInt (x ++ s) = pyInt x := by
  rw [pyInt, pyInt, pyStrip_append_ws x s h]

/-- Stripping a line does not change its number of semicolon fields. -/
theorem length_split_strip (l : Str) :
    (splitOnChar ';' (pyStrip l)).length = (splitOnChar ';' l).length := by
  obtain ⟨p, s, hd, hp, hs⟩ := strip_decomp l
  have hp' : ∀ c ∈ p, ¬c = ';' := fun c hc => space_ne_semi c (hp c hc)
  have hs' : ∀ c ∈ s, ¬c = ';' := fun c hc => space_ne_semi c (hs c hc)
  conv_rhs => rw [hd]
  rw [List.append_assoc, splitOnChar_append_left ';' p _ hp',
    splitOnChar_append_right ';' _ s hs']
  cases hM : splitOnChar ';' (pyStrip l) with
  | nil => exact absurd hM (splitOnChar_ne_nil _ _)
  | cons m0 mt =>
    cases mt with
    | nil => simp [appendLast]
    | cons m1 mt2 => simp [appendLast, appendLast_length]

/-- Stripping a line does not change whether field 6 parses as an
integer, nor its value. -/
theorem field6_strip (l : Str) :
    pyInt ((splitOnChar ';' (pyStrip l)).getD 6 []) =
      pyInt ((splitOnChar ';' l).getD 6 []) := by
  obtain ⟨p, s, hd, hp, hs⟩ := strip_decomp l
  have hp' : ∀ c ∈ p, ¬c = ';' := fun c hc => space_ne_semi c (hp c hc)
  have hs' : ∀ c ∈ s, ¬c = ';' := fun c hc => space_ne_semi c (hs c hc)
  conv_rhs => rw [hd]
  rw [List.append_assoc, splitOnChar_append_left ';' p _ hp',
    splitOnChar_append_right ';' _ s hs']
  cases hM : splitOnChar ';' (pyStrip l) with
  | nil => exact absurd hM (splitOnChar_ne_nil _ _)
  | cons m0 mt =>
    cases mt with
    | nil => simp [appendLast]
    | cons m1 mt2 =>
      have hshift : ∀ (a : Str) (t : List Str), (a :: t).getD 6 [] = t.getD 5 [] :=
        fun a t => rfl
      rw [hshift, hshift]
      have htail : (appendLast s (m0 :: m1 :: mt2)).tail =
          appendLast s (m1 :: mt2) := rfl
      rw [htail, appendLast_getD]
      by_cases h6 : 5 + 1 = (m1 :: mt2).length
      · rw [if_pos h6]
        exact (pyInt_append_ws _ s hs).symm
      · rw [if_neg h6]

/-! ### read_file characterisations -/

/-- Bridge from a successful index access to `getD`. -/
theorem getD_of_getElem_some (l : List Str) (i : Nat) (x : Str)
    (h : l[i]? = some x) : l.getD i [] = x := by
  rw [List.getD_eq_getElem?_getD, h]
  rfl

/-- A successful gptproject read returns exactly the lines kept by its
year condition, parsed. -/
theorem gptReadAux_some (Y : Int) (ls : List Str) (rows : List (List Str))
    (h : gptReadAux Y ls = some rows) :
    rows = (ls.filter (gptKeep Y)).map parseRow := by
  induction ls generalizing rows with
  | nil =>
    simp only [gptReadAux] at h
    simp [← Option.some.inj h]
  | cons l rest ih =>
    simp only [gptReadAux, List.get?_eq_getElem?] at h
    cases h6 : (splitOnChar ';' (pyStrip l))[6]? with
    | none => simp [h6] at h
    | some fld =>
      simp only [h6] at h
      cases hint : pyInt fld with
      | none => simp [hint] at h
      | some my =>
        simp only [hint] at h
        cases hrec : gptReadAux Y rest with
        | none => simp [hrec] at h
        | some tl =>
          simp only [hrec, Option.map_some'] at h
          have hrows := (Option.some.inj h).symm
          have hfld : (splitOnChar ';' (pyStrip l)).getD 6 [] = fld :=
            getD_of_getElem_some _ 6 fld h6
          by_cases hY : Y = 0 ∨ my ≥ Y
          · have hkeep : gptKeep Y l = true := by
              unfold gptKeep
              rw [hfld, hint]
              rcases hY with h0 | hge
              · simp [h0]
              · simp [hge]
            rw [hrows, if_pos hY, ih tl hrec]
            simp [List.filter_cons, hkeep, parseRow]
          · have hkeep : gptKeep Y l = false := by
              unfold gptKeep
              rw [hfld, hint]
              push_neg at hY
              simp [hY.1, not_le.mpr hY.2]
            rw [hrows, if_neg hY, ih tl hrec]
            simp [List.filter_cons, hkeep]

/-- A successful teamproject read returns exactly the lines kept by its
year condition, parsed. -/
theorem teamReadAux_some (Y : Int) (ls : List Str) (rows : List (List Str))
    (h : teamReadAux Y ls = some rows) :
    rows = (ls.filter (teamKeep Y)).map parseRow := by
  induction ls generalizing rows with
  | nil =>
    simp only [teamReadAux] at h
    simp [← Option.some.inj h]
  | cons l rest ih =>
    simp only [teamReadAux, List.get?_eq_getElem?] at h
    cases h6 : (splitOnChar ';' l)[6]? with
    | none => simp [h6] at h
    | some fld =>
      simp only [h6] at h
      cases hint : pyInt fld with
      | none => simp [hint] at h
      | some my =>
        simp only [hint] at h
        cases hrec : teamReadAux Y rest with
        | none => simp [hrec] at h
        | some tl =>
          simp only [hrec, Option.map_some'] at h
          have hrows := (Option.some.inj h).symm
          have hfld : (splitOnChar ';' l).getD 6 [] = fld :=
            getD_of_getElem_some _ 6 fld h6
          by_cases hY : my ≥ Y
          · have hkeep : teamKeep Y l = true := by
              unfold teamKeep
              rw [hfld, hint]
              simp [hY]
            rw [hrows, if_pos hY, ih tl hrec]
            simp [List.filter_cons, hkeep, parseRow]
          · have hkeep : teamKeep Y l = false := by
              unfold teamKeep
              rw [hfld, hint]
              simp [hY]
            rw [hrows, if_neg hY, ih tl hrec]
            simp [List.filter_cons, hkeep]

/-- A malformed data line aborts gptproject's read, wherever it occurs. -/
theorem gptReadAux_malformed (Y : Int) (ls : List Str)
    (hm : ∃ l ∈ ls, malformedLine l = true) : gptReadAux Y ls = none := by
  induction ls with
  | nil => simp at hm
  | cons l rest ih =>
    by_cases hl : malformedLine l = true
    · simp only [gptReadAux, List.get?_eq_getElem?]
      unfold malformedLine at hl
      simp only [Bool.or_eq_true, decide_eq_true_eq,
        Option.isNone_iff_eq_none] at hl
      rcases hl with h7 | hno
      · have h6 : (splitOnChar ';' (pyStrip l))[6]? = none := by
          rw [← List.get?_eq_getElem?, List.get?_eq_none, length_split_strip]
          omega
        simp [h6]
      · cases h6 : (splitOnChar ';' (pyStrip l))[6]? with
        | none => simp [h6]
        | some fld =>
          have hfld : (splitOnChar ';' (pyStrip l)).getD 6 [] = fld :=
            getD_of_getElem_some _ 6 fld h6
          have hnone : pyInt fld = none := by
            rw [← hfld, field6_strip]
            exact hno
          simp [h6, hnone]
    · have hm2 : ∃ l2 ∈ rest, malformedLine l2 = true := by
        rcases hm with ⟨l2, hmem, hml⟩
        rcases List.mem_cons.mp hmem with rfl | hmem2
        · exact absurd hml hl
        · exact ⟨l2, hmem2, hml⟩
      have hrec := ih hm2
      simp only [gptReadAux, List.get?_eq_getElem?]
      cases h6 : (splitOnChar ';' (pyStrip l))[6]? with
      | none => simp [h6]
      | some fld =>
        cases hint : pyInt fld with
        | none => simp [h6, hint]
        | some my => simp [h6, hint, hrec]

/-- A malformed data line aborts teamproject's read, wherever it occurs. -/
theorem teamReadAux_malformed (Y : Int) (ls : List Str)
    (hm : ∃ l ∈ ls, malformedLine l = true) : teamReadAux Y ls = none := by
  induction ls with
  | nil => simp at hm
  | cons l rest ih =>
    by_cases hl : malformedLine l = true
    · simp only [teamReadAux, List.get?_eq_getElem?]
      unfold malformedLine at hl
      simp only [Bool.or_eq_true, decide_eq_true_eq,
        Option.isNone_iff_eq_none] at hl
      rcases hl with h7 | hno
      · have h6 : (splitOnChar ';' l)[6]? = none := by
          rw [← List.get?_eq_getElem?, List.get?_eq_none]
          omega
        simp [h6]
      · cases h6 : (splitOnChar ';' l)[6]? with
        | none => simp [h6]
        | some fld =>
          have hfld : (splitOnChar ';' l).getD 6 [] = fld :=
            getD_of_getElem_some _ 6 fld h6
          have hnone : pyInt fld = none := by
            rw [← hfld]
            exact hno
          simp [h6, hnone]
    · have hm2 : ∃ l2 ∈ rest, malformedLine l2 = true := by
        rcases hm with ⟨l2, hmem, hml⟩
        rcases List.mem_cons.mp hmem with rfl | hmem2
        · exact absurd hml hl
        · exact ⟨l2, hmem2, hml⟩
      have hrec := ih hm2
      simp only [teamReadAux, List.get?_eq_getElem?]
      cases h6 : (splitOnChar ';' l)[6]? with
      | none => simp [h6]
      | some fld =>
        cases hint : pyInt fld with
        | none => simp [h6, hint]
        | some my => simp [h6, hint, hrec]

/-- gptproject keeps every well-formed line when the year filter is 0. -/
theorem gptKeep_zero (l : Str) : gptKeep 0 l = true := by
  simp [gptKeep]

/-! ### Membership and score transport through the pipelines -/

/-- Every entry of teamproject's output comes from a film of the dataset
passing its genre test, and carries that film's combined score. -/
theorem teamTopNV_mem (data : List Film) (g : Str) (n : Nat) (e : Str × ℚ)
    (he : e ∈ teamTopNV data g n) :
    ∃ f ∈ data, teamPass g f = true ∧
      e = (f.title, (f.rating + teamAvgV (teamDict data) f) / 2) := by
  have hpairs : e ∈ (sortBy keyLe (teamTriples data g)).map
      (fun t => (t.1, combinedOf t)) := by
    simp only [teamTopNV] at he
    by_cases hn : n > 0
    · rw [if_pos hn] at he
      exact List.take_subset n _ he
    · rwa [if_neg hn] at he
  obtain ⟨t, ht, het⟩ := List.mem_map.mp hpairs
  have ht2 : t ∈ teamTriples data g := ((sortBy_perm keyLe _).mem_iff).mp ht
  obtain ⟨f, hf, hft⟩ := List.mem_map.mp ht2
  refine ⟨f, List.mem_of_mem_filter hf, List.of_mem_filter hf, ?_⟩
  rw [← het, ← hft]
  rfl

/-- Every film of the dataset contributes its entry to teamproject's
unfiltered, untruncated output. -/
theorem teamTopNV_mem_all (data : List Film) (f : Film) (hf : f ∈ data) :
    (f.title, (f.rating + teamAvgV (teamDict data) f) / 2) ∈
      teamTopNV data [] 0 := by
  simp only [teamTopNV, gt_iff_lt, lt_irrefl, if_false]
  refine List.mem_map.mpr ⟨(f.title, f.rating, teamAvgV (teamDict data) f), ?_, rfl⟩
  refine ((sortBy_perm keyLe _).mem_iff).mpr ?_
  exact List.mem_map.mpr ⟨f, List.mem_filter.mpr ⟨hf, teamPass_nil f⟩, rfl⟩

/-- Every entry of gptproject's output comes from a film of the dataset
passing its genre test, and carries that film's combined score. -/
theorem gptTopNV_mem (data : List Film) (g : Str) (n : Nat) (e : Str × ℚ)
    (he : e ∈ gptTopNV data g n) :
    ∃ f ∈ data, gptPass (gptGenreList g) f = true ∧
      e = (f.title, (f.rating + gptAvgV data f) / 2) := by
  have hpairs : ∃ t, t ∈ sortBy keyLe (gptTriples data g) ∧
      e = (t.1, combinedOf t) := by
    simp only [gptTopNV] at he
    by_cases hn : n > 0
    · rw [if_pos hn] at he
      obtain ⟨t, ht, het⟩ := List.mem_map.mp he
      exact ⟨t, List.take_subset n _ ht, het.symm⟩
    · rw [if_neg hn] at he
      obtain ⟨t, ht, het⟩ := List.mem_map.mp he
      exact ⟨t, ht, het.symm⟩
  obtain ⟨t, ht, het⟩ := hpairs
  have ht2 : t ∈ gptTriples data g := ((sortBy_perm keyLe _).mem_iff).mp ht
  obtain ⟨f, hf, hft⟩ := List.mem_map.mp ht2
  refine ⟨f, List.mem_of_mem_filter hf, List.of_mem_filter hf, ?_⟩
  rw [het, ← hft]
  rfl

/-- Every film of the dataset contributes its entry to gptproject's
unfiltered, untruncated output. -/
theorem gptTopNV_mem_all (data : List Film) (f : Film) (hf : f ∈ data) :
    (f.title, (f.rating + gptAvgV data f) / 2) ∈ gptTopNV data [] 0 := by
  simp only [gptTopNV, gt_iff_lt, lt_irrefl, if_false]
  refine List.mem_map.mpr ⟨(f.title, f.rating, gptAvgV data f), ?_, rfl⟩
  refine ((sortBy_perm keyLe _).mem_iff).mpr ?_
  exact List.mem_map.mpr ⟨f, List.mem_filter.mpr ⟨hf, gptPass_nil f⟩, rfl⟩

/-- The specification's sum of index values coincides with teamproject's
sum of dictionary lookups. -/
theorem specSum_eq_sumLookups (data : List Film) (as : List Str) :
    specSum data as = sumLookups (teamDict data) as := by
  induction as with
  | nil => rfl
  | cons a t ih => simp only [specSum, sumLookups, teamDict_find, ih]

/-- For a film of the dataset, the specification's combined score is
defined and equals the score teamproject computes. -/
theorem specCombined_eq (data : List Film) (f : Film) (hf : f ∈ data) :
    specCombined data f =
      some ((f.rating + teamAvgV (teamDict data) f) / 2) := by
  rw [specCombined, specSum_eq_sumLookups,
    sumLookups_eq _ _ (fun a ha => teamDict_covers data f a hf ha)]
  rfl

/-- Mapping sorted triples to `(title, combined)` pairs yields a list
ordered as the specification requires. -/
theorem pairs_pairwise (l : List (Str × ℚ × ℚ)) :
    ((sortBy keyLe l).map (fun t => (t.1, combinedOf t))).Pairwise
      reportOrder := by
  have hs := sortBy_pairwise keyLe keyLe_total keyLe_trans l
  refine List.Pairwise.map _ ?_ hs
  intro a b hab
  simp only [keyLe, Bool.or_eq_true, Bool.and_eq_true, decide_eq_true_eq]
    at hab
  constructor
  · rcases hab with h | ⟨h, _⟩
    · have := neg_lt_neg_iff.mp h
      exact le_of_lt this
    · exact le_of_eq (neg_inj.mp h).symm
  · intro heq
    rcases hab with h | ⟨h, hle⟩
    · exfalso
      have := neg_lt_neg_iff.mp h
      simp only at heq
      rw [heq] at this
      exact lt_irrefl _ this
    · exact hle

/-! ### Claims -/

/-- Claim C10: `read_file` fails whenever some non-header line has fewer
than 7 semicolon-separated fields or a field 6 that is not an integer; any
malformed line aborts the whole load and no dataset is returned, in both
implementations. -/
theorem claim_C10 (lines : List Str) (Y : Int)
    (hm : ∃ l ∈ lines.drop 1, malformedLine l = true) :
    gptReadFile lines Y = none ∧ teamReadFile lines Y = none :=
  ⟨gptReadAux_malformed Y (lines.drop 1) hm,
   teamReadAux_malformed Y (lines.drop 1) hm⟩

/-- Witness for C10: the concrete file whose data row has two fields
aborts both reads. -/
theorem claim_C10_witness :
    gptReadFile badLines 0 = none ∧ teamReadFile badLines 0 = none :=
  claim_C10 badLines 0 (by with_unfolding_all decide)

/-- Claim C6: the actor-average computation of `top_n` is total in both
implementations: splitting the actor field always yields at least one
name, every dictionary lookup (teamproject) and per-actor maximum
(gptproject) on a credited actor is defined, and `top_n` never fails with
a missing key or a division by zero. -/
theorem claim_C6 :
    (∀ s : Str, (splitCS s).length ≠ 0) ∧
    (∀ (data : List Film) (f : Film) (a : Str), f ∈ data →
      a ∈ splitCS f.actors → (dictFind (teamDict data) a).isSome) ∧
    (∀ (data : List Film) (f : Film) (a : Str), f ∈ data →
      a ∈ splitCS f.actors → (gptHighest a data).isSome) ∧
    (∀ (data : List Film) (g : Str) (n : Nat),
      teamTopN data g n ≠ none ∧ gptTopN data g n ≠ none) := by
  refine ⟨?_, ?_, ?_, ?_⟩
  · intro s h
    exact splitCS_ne_nil s (List.length_eq_zero.mp h)
  · exact fun data f a hf ha => teamDict_covers data f a hf ha
  · exact fun data f a hf ha => gptHighest_isSome data f a hf ha
  · intro data g n
    constructor
    · rw [teamTopN_eq]
      exact Option.some_ne_none _
    · rw [gptTopN_eq]
      exact Option.some_ne_none _

/-- Witness for C6, at a dataset whose single film has an empty actor
field. -/
theorem claim_C6_witness :
    (splitCS filmNoActors.actors).length ≠ 0 ∧
    (dictFind (teamDict [filmNoActors]) []).isSome = true ∧
    (gptHighest [] [filmNoActors]).isSome = true ∧
    (teamTopN [filmNoActors] [] 0 ≠ none ∧ gptTopN [filmNoActors] [] 0 ≠ none) :=
  ⟨claim_C6.1 filmNoActors.actors,
   claim_C6.2.1 [filmNoActors] filmNoActors [] (by with_unfolding_all decide) (by with_unfolding_all decide),
   claim_C6.2.2.1 [filmNoActors] filmNoActors [] (by with_unfolding_all decide) (by with_unfolding_all decide),
   claim_C6.2.2.2 [filmNoActors] [] 0⟩

/-- Counterexample to C5 as stated: a movie whose actor field is empty
does not make `top_n` fail — splitting yields the single empty-string
actor name and both implementations return a result. -/
theorem claim_C5_counterexample :
    filmNoActors.actors = [] ∧
    teamTopN [filmNoActors] [] 0 = some [(['A'], 4)] ∧
    gptTopN [filmNoActors] [] 0 = some [(['A'], 4)] := by
  refine ⟨rfl, ?_, ?_⟩ <;> with_unfolding_all rfl

/-- Claim C5 (amended): no `EmptyActorGroup` failure exists: splitting an
actor field on `", "` always yields at least one (possibly empty) name, so
the mean is over a nonempty list and `top_n` succeeds even when some
movie's actor field is empty. -/
theorem claim_C5_amended :
    (∀ s : Str, splitCS s ≠ []) ∧
    (∀ (data : List Film) (g : Str) (n : Nat) (f : Film), f ∈ data →
      f.actors = [] → teamTopN data g n ≠ none ∧ gptTopN data g n ≠ none) := by
  constructor
  · exact splitCS_ne_nil
  · intro data g n f _ _
    constructor
    · rw [teamTopN_eq]
      exact Option.some_ne_none _
    · rw [gptTopN_eq]
      exact Option.some_ne_none _

/-- Witness for the amended C5, at the dataset with an empty actor field. -/
theorem claim_C5_amended_witness :
    splitCS [] ≠ [] ∧
    (teamTopN [filmNoActors] [] 0 ≠ none ∧ gptTopN [filmNoActors] [] 0 ≠ none) :=
  ⟨claim_C5_amended.1 [],
   claim_C5_amended.2 [filmNoActors] [] 0 filmNoActors (by with_unfolding_all decide) rfl⟩

/-- Counterexample to C3 as stated: with filter `"Act"` and a movie of
genre field `"Action"`, no filter token equals a genre token, yet the
movie appears in gptproject's output (its genre test is substring
containment, not token equality). -/
theorem claim_C3_counterexample :
    specPass ['A','c','t'] filmAction = false ∧
    gptTopN [filmAction] ['A','c','t'] 0 = some [(['A'], 8)] := by
  constructor
  · decide
  · with_unfolding_all rfl

/-- Claim C3 (amended): teamproject's genre test is exactly the claimed
one — a movie passes iff the filter is empty or some filter token (split
on `","`) equals one of its genre tokens — and its output ranks exactly
the films so selected; gptproject instead passes a movie iff the filter is
empty or some stripped filter token occurs as a substring of the raw genre
field; in both, the empty filter selects every movie. -/
theorem claim_C3_amended :
    (∀ (g : Str) (f : Film), teamPass g f = specPass g f) ∧
    (∀ (data : List Film) (g : Str) (n : Nat),
      teamTopN data g n = teamRank data (data.filter (specPass g)) n) ∧
    (∀ (data : List Film) (g : Str) (n : Nat),
      gptTopN data g n = gptRank data (data.filter (gptSubstrPass g)) n) ∧
    (∀ data : List Film,
      data.filter (specPass []) = data ∧ data.filter (gptSubstrPass []) = data) := by
  refine ⟨teamPass_eq_specPass, teamTopN_rank, gptTopN_rank, ?_⟩
  intro data
  constructor
  · exact List.filter_eq_self.mpr (fun f _ => specPass_nil f)
  · exact List.filter_eq_self.mpr (fun f _ => gptSubstrPass_nil f)

/-- Counterexample to C7 as stated: on a file whose single data row has
year `-1`, teamproject's `read_file` with `minYear = 0` drops the row
(it filters `int(field6) >= 0` with no special case for 0) while
gptproject returns all rows as the claim demands. -/
theorem claim_C7_counterexample :
    gptReadFile negYearLines 0 = some ((negYearLines.drop 1).map parseRow) ∧
    teamReadFile negYearLines 0 = some [] ∧
    teamReadFile negYearLines 0 ≠ some ((negYearLines.drop 1).map parseRow) := by
  refine ⟨?_, ?_, ?_⟩
  · with_unfolding_all rfl
  · with_unfolding_all rfl
  · with_unfolding_all decide

/-- Claim C7 (amended): gptproject behaves as claimed — with `Y ≠ 0` every
returned record's field 6 parses to a year `≥ Y` and with `Y = 0` every
record is returned; teamproject always filters `year ≥ Y`, so with `Y = 0`
it returns all records only when every year is non-negative; in both, the
survivors keep the file order (the result is a sublist of the full parse). -/
theorem claim_C7_amended :
    (∀ (lines : List Str) (Y : Int) (rows : List (List Str)),
      gptReadFile lines Y = some rows →
        (Y ≠ 0 → ∀ r ∈ rows, ∃ y, pyInt (r.getD 6 []) = some y ∧ y ≥ Y) ∧
        (Y = 0 → rows = (lines.drop 1).map parseRow) ∧
        rows.Sublist ((lines.drop 1).map parseRow)) ∧
    (∀ (lines : List Str) (Y : Int) (rows : List (List Str)),
      teamReadFile lines Y = some rows →
        (∀ r ∈ rows, ∃ y, pyInt (r.getD 6 []) = some y ∧ y ≥ Y) ∧
        rows.Sublist ((lines.drop 1).map parseRow) ∧
        (Y = 0 → (∀ l ∈ lines.drop 1, ∃ y,
            pyInt ((splitOnChar ';' l).getD 6 []) = some y ∧ y ≥ 0) →
          rows = (lines.drop 1).map parseRow)) := by
  constructor
  · intro lines Y rows h
    have hrows := gptReadAux_some Y (lines.drop 1) rows h
    refine ⟨?_, ?_, ?_⟩
    · intro hY r hr
      rw [hrows] at hr
      obtain ⟨l, hl, hrl⟩ := List.mem_map.mp hr
      have hkeep : gptKeep Y l = true := List.of_mem_filter hl
      unfold gptKeep at hkeep
      rcases Bool.or_eq_true_iff.mp hkeep with h0 | hm
      · exact absurd (of_decide_eq_true h0) hY
      · cases hint : pyInt ((splitOnChar ';' (pyStrip l)).getD 6 []) with
        | none => rw [hint] at hm; cases hm
        | some my =>
          rw [hint] at hm
          refine ⟨my, ?_, of_decide_eq_true hm⟩
          rw [← hrl]
          exact hint
    · intro hY
      subst hY
      rw [hrows, List.filter_eq_self.mpr (fun l _ => gptKeep_zero l)]
    · rw [hrows]
      exact List.Sublist.map parseRow (List.filter_sublist _)
  · intro lines Y rows h
    have hrows := teamReadAux_some Y (lines.drop 1) rows h
    refine ⟨?_, ?_, ?_⟩
    · intro r hr
      rw [hrows] at hr
      obtain ⟨l, hl, hrl⟩ := List.mem_map.mp hr
      have hkeep : teamKeep Y l = true := List.of_mem_filter hl
      unfold teamKeep at hkeep
      cases hint : pyInt ((splitOnChar ';' l).getD 6 []) with
      | none => rw [hint] at hkeep; cases hkeep
      | some my =>
        rw [hint] at hkeep
        refine ⟨my, ?_, of_decide_eq_true hkeep⟩
        rw [← hrl]
        show pyInt ((splitOnChar ';' (pyStrip l)).getD 6 []) = some my
        rw [field6_strip]
        exact hint
    · rw [hrows]
      exact List.Sublist.map parseRow (List.filter_sublist _)
    · intro hY hall
      subst hY
      rw [hrows]
      rw [List.filter_eq_self.mpr ?_]
      intro l hl
      obtain ⟨y, hy, hy0⟩ := hall l hl
      unfold teamKeep
      rw [hy]
      exact decide_eq_true hy0

/-- Witness for the amended C7: the year-2016 file is returned whole by
gptproject at `Y = 0`, and teamproject's empty result on the negative-year
file is a sublist of the full parse. -/
theorem claim_C7_amended_witness :
    ([[['a'],['b'],['c'],['d'],['e'],['f'],['2','0','1','6'],['x']]] :
        List (List Str)) = (yearLines.drop 1).map parseRow ∧
    ([] : List (List Str)).Sublist ((negYearLines.drop 1).map parseRow) :=
  ⟨(claim_C7_amended.1 yearLines 0 _ (by with_unfolding_all rfl)).2.1 rfl,
   (claim_C7_amended.2 negYearLines 0 [] (by with_unfolding_all rfl)).2.1⟩

/-- Claim C8: the output of `top_n` is sorted by non-increasing combined
score, with equal scores tie-broken by non-decreasing title, in both
implementations. -/
theorem claim_C8 (data : List Film) (g : Str) (n : Nat)
    (outT outG : List (Str × ℚ))
    (ht : teamTopN data g n = some outT) (hg : gptTopN data g n = some outG) :
    outT.Pairwise reportOrder ∧ outG.Pairwise reportOrder := by
  rw [teamTopN_eq] at ht
  rw [gptTopN_eq] at hg
  have ht2 := (Option.some.inj ht).symm
  have hg2 := (Option.some.inj hg).symm
  constructor
  · rw [ht2]
    simp only [teamTopNV]
    have hp := pairs_pairwise (teamTriples data g)
    by_cases hn : n > 0
    · rw [if_pos hn]
      exact List.Pairwise.sublist (List.take_sublist n _) hp
    · rw [if_neg hn]
      exact hp
  · rw [hg2]
    simp only [gptTopNV]
    have hp := pairs_pairwise (gptTriples data g)
    by_cases hn : n > 0
    · rw [if_pos hn, List.map_take]
      exact List.Pairwise.sublist (List.take_sublist n _) hp
    · rw [if_neg hn]
      exact hp

/-- Witness for C8 on a concrete two-film dataset. -/
theorem claim_C8_witness :
    List.Pairwise reportOrder [((['B'] : Str), (9 : ℚ)), (['A'], 3)] ∧
    List.Pairwise reportOrder [((['B'] : Str), (9 : ℚ)), (['A'], 6)] :=
  claim_C8 [filmAnn, filmAnnabel] [] 0 [(['B'], 9), (['A'], 3)]
    [(['B'], 9), (['A'], 6)] (by with_unfolding_all rfl)
    (by with_unfolding_all rfl)

/-- Claim C9: with `n > 0` the output length of `top_n` is
`min n (number of films passing the genre filter)`, and with `n = 0` it is
the number of passing films, in both implementations. -/
theorem claim_C9 (data : List Film) (g : Str) (n : Nat)
    (outT outG : List (Str × ℚ))
    (ht : teamTopN data g n = some outT) (hg : gptTopN data g n = some outG) :
    (0 < n →
      outT.length = min n (data.filter (teamPass g)).length ∧
      outG.length = min n (data.filter (gptPass (gptGenreList g))).length) ∧
    (n = 0 →
      outT.length = (data.filter (teamPass g)).length ∧
      outG.length = (data.filter (gptPass (gptGenreList g))).length) := by
  rw [teamTopN_eq] at ht
  rw [gptTopN_eq] at hg
  have ht2 := (Option.some.inj ht).symm
  have hg2 := (Option.some.inj hg).symm
  constructor
  · intro hn
    constructor
    · rw [ht2]
      simp only [teamTopNV]
      rw [if_pos hn, List.length_take, List.length_map, sortBy_length]
      unfold teamTriples
      rw [List.length_map]
    · rw [hg2]
      simp only [gptTopNV]
      rw [if_pos hn, List.length_map, List.length_take, sortBy_length]
      unfold gptTriples
      rw [List.length_map]
  · intro hn
    subst hn
    constructor
    · rw [ht2]
      simp only [teamTopNV]
      rw [if_neg (lt_irrefl 0), List.length_map, sortBy_length]
      unfold teamTriples
      rw [List.length_map]
    · rw [hg2]
      simp only [gptTopNV]
      rw [if_neg (lt_irrefl 0), List.length_map, sortBy_length]
      unfold gptTriples
      rw [List.length_map]

/-- Witness for C9 with `n = 1` on a two-film dataset. -/
theorem claim_C9_witness :
    (([((['B'] : Str), (9 : ℚ))]).length =
      min 1 ([filmAnn, filmAnnabel].filter (teamPass [])).length) ∧
    (([((['B'] : Str), (9 : ℚ))]).length =
      min 1 ([filmAnn, filmAnnabel].filter (gptPass (gptGenreList []))).length) :=
  (claim_C9 [filmAnn, filmAnnabel] [] 1 [(['B'], 9)] [(['B'], 9)]
    (by with_unfolding_all rfl) (by with_unfolding_all rfl)).1 (by decide)

/-- Claim C4: actor ratings are computed from the whole dataset before
genre filtering, so every entry produced under any genre filter (and any
truncation) also appears, with the same combined score, in the output of
the empty-filter untruncated run, in both implementations. -/
theorem claim_C4 (data : List Film) (g : Str) (n : Nat)
    (outG outG0 outT outT0 : List (Str × ℚ))
    (hg : gptTopN data g n = some outG) (hg0 : gptTopN data [] 0 = some outG0)
    (ht : teamTopN data g n = some outT)
    (ht0 : teamTopN data [] 0 = some outT0) :
    (∀ e ∈ outG, e ∈ outG0) ∧ (∀ e ∈ outT, e ∈ outT0) := by
  rw [gptTopN_eq] at hg hg0
  rw [teamTopN_eq] at ht ht0
  have hg2 := (Option.some.inj hg).symm
  have hg02 := (Option.some.inj hg0).symm
  have ht2 := (Option.some.inj ht).symm
  have ht02 := (Option.some.inj ht0).symm
  constructor
  · intro e he
    rw [hg2] at he
    obtain ⟨f, hf, _, hef⟩ := gptTopNV_mem data g n e he
    rw [hg02, hef]
    exact gptTopNV_mem_all data f hf
  · intro e he
    rw [ht2] at he
    obtain ⟨f, hf, _, hef⟩ := teamTopNV_mem data g n e he
    rw [ht02, hef]
    exact teamTopNV_mem_all data f hf

/-- Witness for C4: with filter `"Action"`, the single film's entry
appears in the empty-filter output. -/
theorem claim_C4_witness :
    ((['A'] : Str), (8 : ℚ)) ∈ [((['A'] : Str), (8 : ℚ))] :=
  (claim_C4 [filmAction] ['A','c','t','i','o','n'] 0 [(['A'], 8)]
    [(['A'], 8)] [(['A'], 8)] [(['A'], 8)] (by with_unfolding_all rfl)
    (by with_unfolding_all rfl) (by with_unfolding_all rfl)
    (by with_unfolding_all rfl)).1 (['A'], 8) (by with_unfolding_all decide)

/-- Counterexample to C2 as stated: on a one-film dataset of genre
`"Action"` with filter `"Act"`, gptproject's substring genre test keeps
the film while teamproject's exact-token test drops it, so the two
`top_n` implementations return different results. -/
theorem claim_C2_counterexample :
    gptTopN [filmAction] ['A','c','t'] 0 = some [(['A'], 8)] ∧
    teamTopN [filmAction] ['A','c','t'] 0 = some [] ∧
    gptTopN [filmAction] ['A','c','t'] 0 ≠
      teamTopN [filmAction] ['A','c','t'] 0 := by
  refine ⟨?_, ?_, ?_⟩
  · with_unfolding_all rfl
  · with_unfolding_all rfl
  · with_unfolding_all decide

/-- Claim C2 (amended): the implementations are not extensionally equal,
but the `write_file` bodies are identical, and with an empty genre filter
the two `top_n` implementations agree on every dataset on which their
actor indices agree on all credited actors. -/
theorem claim_C2_amended :
    (∀ (render : ℚ → Str) (top : List (Str × ℚ)),
      gptWriteFile render top = teamWriteFile render top) ∧
    (∀ (data : List Film) (n : Nat),
      (∀ f ∈ data, ∀ a ∈ splitCS f.actors,
        gptHighest a data = dictFind (teamDict data) a) →
      gptTopN data [] n = teamTopN data [] n) := by
  constructor
  · intro render top
    rfl
  · intro data n hidx
    have hval : gptTopNV data [] n = teamTopNV data [] n := by
      have htrip : gptTriples data [] = teamTriples data [] := by
        unfold gptTriples teamTriples
        rw [List.filter_eq_self.mpr (fun f _ => gptPass_nil f),
          List.filter_eq_self.mpr (fun f _ => teamPass_nil f)]
        refine List.map_congr_left ?_
        intro f hf
        have havg : gptAvgV data f = teamAvgV (teamDict data) f := by
          unfold gptAvgV teamAvgV
          have hmaps : (splitCS f.actors).map (fun a => gptHighestV a data) =
              (splitCS f.actors).map (teamLookupV (teamDict data)) := by
            refine List.map_congr_left ?_
            intro a ha
            unfold gptHighestV teamLookupV
            rw [hidx f hf a ha]
          rw [hmaps]
        rw [havg]
      simp only [gptTopNV, teamTopNV]
      rw [htrip]
      by_cases hn : n > 0
      · rw [if_pos hn, if_pos hn, List.map_take]
      · rw [if_neg hn, if_neg hn]
    rw [gptTopN_eq, teamTopN_eq, hval]

/-- Witness for the amended C2 on a one-film dataset where both actor
indices give the actor `X` the rating 8. -/
theorem claim_C2_amended_witness :
    gptTopN [filmAction] [] 0 = teamTopN [filmAction] [] 0 :=
  claim_C2_amended.2 [filmAction] 0 (by with_unfolding_all decide)

/-- Counterexample to C1 as stated: with movies crediting `Ann` (rating 3)
and `Annabel` (rating 9), gptproject scores the `Ann` movie 6, because its
per-actor maximum matches `Ann` as a substring of `Annabel`; the claim's
whole-name index gives `Ann` the value 3 and hence the combined score 3. -/
theorem claim_C1_counterexample :
    gptTopN [filmAnn, filmAnnabel] [] 0 = some [(['B'], 9), (['A'], 6)] ∧
    filmAnn.title = ['A'] ∧ filmAnnabel.title = ['B'] ∧
    specCombined [filmAnn, filmAnnabel] filmAnn = some 3 ∧ (6 : ℚ) ≠ 3 := by
  refine ⟨?_, rfl, rfl, ?_, ?_⟩
  · with_unfolding_all rfl
  · with_unfolding_all rfl
  · with_unfolding_all decide

/-- Claim C1 (amended): every teamproject entry carries the combined score
`(movie.rating + mean(index[a]))/2` with the whole-name maximum index of
the claim; gptproject's entries instead use, per actor, the maximum rating
over movies whose raw actor field contains the actor's name as a
substring. -/
theorem claim_C1_amended :
    (∀ (data : List Film) (g : Str) (n : Nat) (out : List (Str × ℚ)),
      teamTopN data g n = some out →
      ∀ e ∈ out, ∃ f ∈ data, e.1 = f.title ∧ specCombined data f = some e.2) ∧
    (∀ (data : List Film) (g : Str) (n : Nat) (out : List (Str × ℚ)),
      gptTopN data g n = some out →
      ∀ e ∈ out, ∃ f ∈ data,
        e.1 = f.title ∧ e.2 = (f.rating + gptAvgV data f) / 2) := by
  constructor
  · intro data g n out h e he
    rw [teamTopN_eq] at h
    rw [← Option.some.inj h] at he
    obtain ⟨f, hf, _, hef⟩ := teamTopNV_mem data g n e he
    refine ⟨f, hf, by rw [hef], ?_⟩
    rw [specCombined_eq data f hf, hef]
  · intro data g n out h e he
    rw [gptTopN_eq] at h
    rw [← Option.some.inj h] at he
    obtain ⟨f, hf, _, hef⟩ := gptTopNV_mem data g n e he
    exact ⟨f, hf, by rw [hef], by rw [hef]⟩

/-- Witness for the amended C1: the entry `("A", 3)` of teamproject's
output carries exactly the specification's combined score for the `Ann`
movie. -/
theorem claim_C1_amended_witness :
    specCombined [filmAnn, filmAnnabel] filmAnn = some 3 := by
  have h := claim_C1_amended.1 [filmAnn, filmAnnabel] [] 0
    [(['B'], 9), (['A'], 3)] (by with_unfolding_all rfl) (['A'], 3)
    (by with_unfolding_all decide)
  obtain ⟨f, hf, hft, hcomb⟩ := h
  rcases List.mem_cons.mp hf with rfl | hf2
  · exact hcomb
  · rcases List.mem_cons.mp hf2 with rfl | hf3
    · exact absurd hft (by with_unfolding_all decide)
    · cases hf3
